import Mathlib

/-!
# Verification of the UIM protocol service manager core

A shallow embedding, in Lean 4, of the core components of the
`uim-protocolservice-manager` repository:

* the metadata-driven invocation engine
  (`implementations/uim-chatbot/service_invoker.py`, `GenericServiceInvoker.invoke`);
* the response normalizer (same file, `invoke` response handling and the
  `_parse_xml_response` / `_parse_json_response` helpers);
* the discovery selector
  (`implementations/uimServicemanager/API/logicLayer/Logic/discoveryLogic.py`)
  together with its HTTP controller error mapping
  (`.../Presentation/Controller/discoveryController.py`);
* the hallucination retry guard
  (`implementations/uim-chatbot/hallucination_detector.py`);
* the parameter synthesizer fallback
  (`implementations/uim-chatbot/fast_system.py`).

Python dictionaries are embedded as insertion-ordered association lists,
Python values as the inductive `PyVal`, and external I/O (the HTTP agent
runs, the LLM completion call, and the third-party XML/JSON parsing
libraries) as explicit oracle arguments describing their outcome.
String handling is over ASCII, which covers every string literal the
embedded code paths compare against.
-/

/-- Embedded Python value, covering the shapes that flow through the
invocation pipeline.  `PyVal.none` is Python's `None`. -/
inductive PyVal where
  | none
  | str (s : String)
  | int (n : Int)
  | bool (b : Bool)
  deriving DecidableEq

/-- Python `str(v)` for the embedded values (used by the path substitution
`str(param_value)` in `invoke`). -/
def pyStr : PyVal → String
  | PyVal.none => "None"
  | PyVal.str s => s
  | PyVal.int n => toString n
  | PyVal.bool b => if b then "True" else "False"

/-- A Python `dict` keyed by strings, as an insertion-ordered association
list with unique keys. -/
abbrev PyDict := List (String × PyVal)

/-- Python `d[k] = v`: replace the value in place when the key exists
(keeping its position, as CPython dicts do), otherwise append. -/
def dinsert : PyDict → String → PyVal → PyDict
  | [], k, v => [(k, v)]
  | (k', v') :: rest, k, v =>
      if k' = k then (k', v) :: rest else (k', v') :: dinsert rest k v

/-- Python `d.get(k, default)`: the stored value when the key is present
(even when that stored value is `None`), the default otherwise. -/
def pyDictGet (d : PyDict) (k : String) (default : PyVal) : PyVal :=
  match d.lookup k with
  | Option.some v => v
  | Option.none => default

/-- The keys of an embedded dict. -/
def dictKeys (d : PyDict) : List String := d.map Prod.fst

/-- Whether `pat` occurs as a contiguous substring of `s`
(Python's `pat in s` on strings), over character lists. -/
def listContains (s pat : List Char) : Bool :=
  match s with
  | [] => pat.isEmpty
  | _ :: rest => pat.isPrefixOf s || listContains rest pat

/-- Python `pat in s` on strings. -/
def strContains (s pat : String) : Bool := listContains s.data pat.data

/-- Python `str.lower()` (ASCII case folding, which covers every literal
the embedded code compares against). -/
def pyLower (s : String) : String := ⟨s.data.map Char.toLower⟩

/-- Python truthiness of an optional string: `None` and `""` are falsy. -/
def optTruthy : Option String → Bool
  | Option.none => false
  | Option.some s => s ≠ ""

/-- ASCII whitespace recognized by Python's `str.strip()`. -/
def pySpace (c : Char) : Bool :=
  c = ' ' || c = '\t' || c = '\n' || c = '\r' || c = '\x0b' || c = '\x0c'

/-- Python `str.strip()` with no argument: drop leading and trailing
whitespace. -/
def pyStrip (s : String) : String :=
  ⟨((s.data.dropWhile pySpace).reverse.dropWhile pySpace).reverse⟩

/-! ## Invocation engine: `GenericServiceInvoker.invoke`

`service_invoker.py`, lines 40–167.  A `ParamSchema` is one entry of the
intent's `input_parameters` list; the field defaults mirror the
`.get(..., fallback)` calls of the source (`location` defaults to
`"body"`, `required` to `True`, and a missing `default` is `None`). -/

/-- One `input_parameters` entry (`service_invoker.py`, lines 80–84). -/
structure ParamSchema where
  name : String
  location : String := "body"
  required : Bool := true
  default : PyVal := PyVal.none
  deriving DecidableEq

/-- The `service_metadata` fields read by `invoke` (lines 60, 68, 108–113).
Optional fields model `dict.get` returning `None` when absent. -/
structure ServiceMeta where
  name : String := "Unknown"
  service_url : String
  auth_type : String := "none"
  auth_header_name : Option String := Option.none
  auth_query_param : Option String := Option.none
  deriving DecidableEq

/-- The `intent_metadata` fields read by `invoke` (lines 61, 67, 69, 78). -/
structure IntentMeta where
  intent_name : String := "unknown"
  http_method : String := "POST"
  endpoint_path : String := ""
  input_parameters : List ParamSchema := []
  deriving DecidableEq

/-- The four parameter buckets of `invoke` (lines 73–76) plus the list of
required parameters flagged missing by the `logger.warning` at line 94. -/
structure Buckets where
  query : PyDict := []
  body : PyDict := []
  headers : PyDict := []
  path : PyDict := []
  missing : List String := []
  deriving DecidableEq

/-- One iteration of the parameter-routing loop of `invoke`
(lines 80–105): resolve a value via `parameters.get(name, default)`,
skip silently when `None` and optional, flag and skip when `None` and
required, otherwise route into the bucket named by `location` (a value
with an unknown location is dropped, as in the source's if/elif chain). -/
def routeParam (parameters : PyDict) (b : Buckets) (p : ParamSchema) : Buckets :=
  let value := pyDictGet parameters p.name p.default
  if value = PyVal.none && !p.required then b
  else if value = PyVal.none && p.required then
    { b with missing := b.missing ++ [p.name] }
  else if p.location = "query" then { b with query := dinsert b.query p.name value }
  else if p.location = "body" then { b with body := dinsert b.body p.name value }
  else if p.location = "header" then { b with headers := dinsert b.headers p.name value }
  else if p.location = "path" then { b with path := dinsert b.path p.name value }
  else b

/-- The full parameter-routing loop of `invoke` (lines 80–105). -/
def buildBuckets (schemas : List ParamSchema) (parameters : PyDict) : Buckets :=
  schemas.foldl (routeParam parameters) {}

/-- `GenericServiceInvoker._get_api_key` (lines 169–178): scan the
configured `{domain: key}` table for the first domain that is a substring
of the service URL. -/
def getApiKey (apiKeys : List (String × String)) (serviceUrl : String) : Option String :=
  match apiKeys.find? (fun d => strContains serviceUrl d.1) with
  | Option.some d => Option.some d.2
  | Option.none => Option.none

/-- The authentication-injection step of `invoke` (lines 107–118): for
`auth_type == "api_key"` with a resolved, truthy key, put the key into the
query bucket when `auth_query_param` is truthy, else into the header
bucket when `auth_header_name` is truthy; otherwise leave both buckets
unchanged.  Returns the updated (query, headers) pair. -/
def addAuth (svc : ServiceMeta) (apiKeys : List (String × String))
    (query headers : PyDict) : PyDict × PyDict :=
  if svc.auth_type = "api_key" then
    match getApiKey apiKeys svc.service_url with
    | Option.some key =>
        if key ≠ "" then
          if optTruthy svc.auth_query_param then
            (dinsert query (svc.auth_query_param.getD "") (PyVal.str key), headers)
          else if optTruthy svc.auth_header_name then
            (query, dinsert headers (svc.auth_header_name.getD "") (PyVal.str key))
          else (query, headers)
        else (query, headers)
    | Option.none => (query, headers)
  else (query, headers)

/-- Python `s.replace(pat, rep)` over character lists: scan left to right,
replace every non-overlapping occurrence.  The embedded call sites always
pass a nonempty brace-delimited pattern, so Python's special behaviour on
an empty pattern is irrelevant (here an empty pattern simply rewrites
nothing). -/
def replaceList (pat rep : List Char) : List Char → List Char
  | [] => []
  | c :: rest =>
      if h : pat ≠ [] ∧ pat.isPrefixOf (c :: rest) then
        rep ++ replaceList pat rep ((c :: rest).drop pat.length)
      else
        c :: replaceList pat rep rest
termination_by s => s.length
decreasing_by
  · simp only [List.length_drop, List.length_cons]
    have hne : pat.length ≠ 0 := fun h0 => h.1 (List.eq_nil_of_length_eq_zero h0)
    omega
  · simp

/-- Python `s.replace(pat, rep)` on strings. -/
def pyReplace (s pat rep : String) : String := ⟨replaceList pat.data rep.data s.data⟩

/-- The path-substitution loop of `invoke` (lines 120–122): for each entry
of the path bucket in insertion order, replace every `{name}` token in the
URL by `str(value)`. -/
def substPath (url : String) (pathParams : PyDict) : String :=
  pathParams.foldl (fun u p => pyReplace u ("\x7b" ++ p.1 ++ "\x7d") (pyStr p.2)) url

/-- The outgoing HTTP request assembled by `invoke`.  `body` is the JSON
payload handed to the client: `Option.none` when the call sends no body. -/
structure HttpRequest where
  method : String
  url : String
  query : PyDict
  headers : PyDict
  body : Option PyDict
  deriving DecidableEq

/-- The method dispatch of `invoke` (lines 127–141): GET and DELETE send no
body; POST sends the body bucket as JSON exactly when it is non-empty
(`if body_params:`); PUT always passes `json=body_params`; every other
method raises `ValueError("Unsupported HTTP method: ...")`. -/
def dispatch (method url : String) (query headers bodyParams : PyDict) :
    Except String HttpRequest :=
  if method = "GET" then
    Except.ok ⟨"GET", url, query, headers, Option.none⟩
  else if method = "POST" then
    Except.ok ⟨"POST", url, query, headers,
      if bodyParams.isEmpty then Option.none else Option.some bodyParams⟩
  else if method = "PUT" then
    Except.ok ⟨"PUT", url, query, headers, Option.some bodyParams⟩
  else if method = "DELETE" then
    Except.ok ⟨"DELETE", url, query, headers, Option.none⟩
  else
    Except.error ("Unsupported HTTP method: " ++ method)

/-- The request-construction phase of `GenericServiceInvoker.invoke`
(lines 60–141): build the buckets, inject authentication, substitute path
parameters into `base_url + endpoint_path`, and dispatch per method. -/
def invokeRequest (svc : ServiceMeta) (intent : IntentMeta)
    (parameters : PyDict) (apiKeys : List (String × String)) :
    Except String HttpRequest :=
  let b := buildBuckets intent.input_parameters parameters
  let qh := addAuth svc apiKeys b.query b.headers
  let url := substPath (svc.service_url ++ intent.endpoint_path) b.path
  dispatch intent.http_method url qh.1 qh.2 b.body

/-! ## Response normalizer

`service_invoker.py`, lines 143–228.  The third-party parsers
(`xmltodict.parse`, `response.json()`) are external libraries; a
`RawResponse` therefore carries, next to the content type and body text,
the *outcome* of each parse as an oracle field: `Option.some d` when the
library would succeed producing data `d` (kept opaque as a string, since
the generic branches pass it through unchanged), `Option.none` when it
would raise.  Only the control flow of the repository's own code is the
subject of the claims. -/

/-- An HTTP 2xx response as seen by `invoke` after `raise_for_status`. -/
structure RawResponse where
  contentType : String
  text : String
  xmlData : Option String
  jsonData : Option String
  deriving DecidableEq

/-- The exception raised out of the response-handling code: the bare
`raise` in `_parse_xml_response` / `_parse_json_response` (lines 203 and
228), which the caller's `except Exception` handler (lines 165–167)
rewraps as `Exception("Failed to invoke ...")`. -/
inductive NormError where
  | xmlParseError
  | jsonParseError
  deriving DecidableEq

/-- A normalized invocation result.  Optional fields model dict keys that
only some branches produce: the raw-text branch (lines 156–160) emits
`content_type` but no `format`, the generic XML/JSON branches emit
`format` but no `content_type`. -/
structure NormResult where
  success : Bool
  format : Option String := Option.none
  data : Option String := Option.none
  content_type : Option String := Option.none
  deriving DecidableEq

/-- The XML-branch test of line 148: `"xml" in content_type or "atom" in
content_type`. -/
def xmlBranch (r : RawResponse) : Bool :=
  strContains r.contentType "xml" || strContains r.contentType "atom"

/-- The JSON-branch test of line 151: `"json" in content_type or
response.text.strip().startswith("{")`. -/
def jsonBranch (r : RawResponse) : Bool :=
  strContains r.contentType "json" ||
    match (pyStrip r.text).data with
    | '{' :: _ => true
    | _ => false

/-- `_parse_arxiv_response` / `_parse_openweather_response` format tags
(lines 271–276, 281–320): the adapter chosen by substring match on the
service name relabels the result; the domain-shaped fields themselves
(papers, temperatures, ...) are data reshaping no claim depends on and
are not tracked here. -/
def adapterFormat (serviceName intentName : String) (branch : String) : String :=
  if branch = "xml" then
    if strContains (pyLower serviceName) "arxiv" then "arxiv" else "xml"
  else
    if strContains (pyLower serviceName) "openweather" then
      if intentName = "get_current_weather" then "openweather_current"
      else if intentName = "get_forecast" then "openweather_forecast"
      else "openweather"
    else "json"

/-- The response-handling tail of `invoke` (lines 145–160) together with
`_parse_xml_response` and `_parse_json_response` (lines 180–228): branch
on content type; a failed parse on a taken branch propagates as a raised
exception (`Except.error`); a response matching neither branch is
returned as raw text with `success: True` and a `content_type` key (and
no `format` key). -/
def normalizeResponse (serviceName intentName : String) (r : RawResponse) :
    Except NormError NormResult :=
  if xmlBranch r then
    match r.xmlData with
    | Option.some d =>
        Except.ok { success := true,
                    format := Option.some (adapterFormat serviceName intentName "xml"),
                    data := Option.some d }
    | Option.none => Except.error NormError.xmlParseError
  else if jsonBranch r then
    match r.jsonData with
    | Option.some d =>
        Except.ok { success := true,
                    format := Option.some (adapterFormat serviceName intentName "json"),
                    data := Option.some d }
    | Option.none => Except.error NormError.jsonParseError
  else
    Except.ok { success := true, data := Option.some r.text,
                content_type := Option.some r.contentType }

/-! ## Discovery selector

`discoveryLogic.py`, lines 22–58 and 183–223, plus the controller's
error mapping (`discoveryController.py`, lines 55–80).  The tier-3 fuzzy
match is `difflib.get_close_matches(name_query, service_names, n=1,
cutoff=0.6)`, embedded below: `SequenceMatcher.ratio` is `2*M/T` where
`M` is the total size of the matching blocks found by the
longest-matching-block recursion and `T` the sum of the lengths; with no
junk (`isjunk=None`, short strings, so autojunk is inert) the
block-extension loops of `find_longest_match` can never extend the
maximal block the scan finds, and the `quick_ratio` prefilters of
`get_close_matches` are upper bounds of `ratio`, so both are omitted;
ratios are compared as exact rationals, which agrees with the float
computation at these magnitudes. -/

/-- A catalogue service record.  Only the `name` field is inspected by
`_find_service_by_name`; `rest` stands for the remaining fields of the
service dict (description, intents, ...) which ride along unchanged. -/
structure Service where
  name : String
  rest : Nat := 0
  deriving DecidableEq

/-- `b2j` of `SequenceMatcher.__chain_b`: the ascending list of positions
of a character in the second sequence. -/
def b2jList (b : List Char) (c : Char) : List Nat :=
  (List.range b.length).filter (fun j => b.getD j ' ' == c)

/-- The inner loop of `SequenceMatcher.find_longest_match` over one row
`i`: fold over the matching `j` positions, building the new `j2len` map
(as a total function, absent keys being `0`) and improving the best
`(i', j', size)` triple on a strictly larger run length.  Python's
`j2len.get(j-1, 0)` at `j = 0` looks up key `-1`, which is never present,
hence the `j = 0` guard. -/
def flmRow (js : List Nat) (prevJ2len : Nat → Nat) (best : Nat × Nat × Nat)
    (i : Nat) : (Nat → Nat) × (Nat × Nat × Nat) :=
  js.foldl
    (fun acc j =>
      let k := (if j = 0 then 0 else prevJ2len (j - 1)) + 1
      let newJ2len := fun j' => if j' = j then k else acc.1 j'
      let best' := if k > acc.2.2.2 then (i + 1 - k, j + 1 - k, k) else acc.2
      (newJ2len, best'))
    ((fun _ => 0), best)

/-- `SequenceMatcher.find_longest_match(alo, ahi, blo, bhi)` with
`isjunk=None` and inert autojunk: the `j2len` dynamic scan for the
longest block `a[i:i+k] == b[j:j+k]` with `alo <= i <= i+k <= ahi` and
`blo <= j <= j+k <= bhi`, ties resolved to the smallest `i`, then
smallest `j` (the strict `>` improvement test). -/
def findLongestMatch (a b : List Char) (alo ahi blo bhi : Nat) :
    Nat × Nat × Nat :=
  let step := fun (acc : (Nat → Nat) × (Nat × Nat × Nat)) (i : Nat) =>
    let js := (b2jList b (a.getD i ' ')).filter (fun j => blo ≤ j && j < bhi)
    flmRow js acc.1 acc.2 i
  ((List.range' alo (ahi - alo)).foldl step ((fun _ => 0), (alo, blo, 0))).2

/-- The total matched size over `SequenceMatcher.get_matching_blocks`:
the queue-driven loop of the source is equivalently the recursion "find
the longest block of the window, then recurse on the window before it and
the window after it"; the fuel strictly bounds the recursion depth, each
call shrinking the window. -/
def matchingSumAux (a b : List Char) :
    Nat → Nat → Nat → Nat → Nat → Nat
  | 0, _, _, _, _ => 0
  | fuel + 1, alo, ahi, blo, bhi =>
      let m := findLongestMatch a b alo ahi blo bhi
      let i := m.1
      let j := m.2.1
      let k := m.2.2
      if k = 0 then 0
      else
        k + (if alo < i && blo < j then matchingSumAux a b fuel alo i blo j else 0)
          + (if i + k < ahi && j + k < bhi then
               matchingSumAux a b fuel (i + k) ahi (j + k) bhi else 0)

/-- `M`: total size of the matching blocks of the two sequences. -/
def matchingSum (a b : List Char) : Nat :=
  matchingSumAux a b (a.length + b.length + 1) 0 a.length 0 b.length

/-- `SequenceMatcher.ratio()` via `_calculate_ratio(matches, length)`:
the exact fraction `2*M / T` kept as an (un-normalized)
numerator/denominator pair of naturals, `(1, 1)` for two empty
sequences.  The denominator is always positive.  Score comparisons below
are cross-multiplication comparisons of these exact fractions, which
coincide with difflib's float comparisons at these magnitudes. -/
def ratioPair (a b : String) : Nat × Nat :=
  if a.length + b.length = 0 then (1, 1)
  else (2 * matchingSum a.data b.data, a.length + b.length)

/-- Strict `<` on ratio fractions, by cross multiplication. -/
def ratioLtB (p q : Nat × Nat) : Bool := p.1 * q.2 < q.1 * p.2

/-- Equality of ratio fractions, by cross multiplication. -/
def ratioEqB (p q : Nat × Nat) : Bool := p.1 * q.2 = q.1 * p.2

/-- The `ratio() >= cutoff` test of `get_close_matches` for
`cutoff = 0.6`: `0.6 <= n/d` iff `3*d <= 5*n`. -/
def cutoffLe (p : Nat × Nat) : Bool := 3 * p.2 ≤ 5 * p.1

/-- Python string `<`: lexicographic comparison by code point. -/
def charListLt : List Char → List Char → Bool
  | [], [] => false
  | [], _ :: _ => true
  | _ :: _, [] => false
  | c :: cs, d :: ds =>
      if c.toNat < d.toNat then true
      else if d.toNat < c.toNat then false
      else charListLt cs ds

/-- Python tuple comparison on `(score, name)` pairs, as used by
`heapq.nlargest` inside `get_close_matches`: by score first, then by
lexicographic string comparison on equal scores. -/
def scoreNameLt (p q : (Nat × Nat) × String) : Bool :=
  ratioLtB p.1 q.1 || (ratioEqB p.1 q.1 && charListLt p.2.data q.2.data)

/-- One comparison step of `heapq.nlargest(1, pairs)`: keep the running
maximum, replacing it only on a strictly larger pair. -/
def nlStep (acc : Option ((Nat × Nat) × String)) (p : (Nat × Nat) × String) :
    Option ((Nat × Nat) × String) :=
  match acc with
  | Option.none => Option.some p
  | Option.some q => if scoreNameLt q p then Option.some p else acc

/-- `heapq.nlargest(1, pairs)` head: the maximum pair under Python tuple
order, the earliest such pair on full equality (`nlargest` is stable). -/
def nlargest1 (l : List ((Nat × Nat) × String)) :
    Option ((Nat × Nat) × String) :=
  l.foldl nlStep Option.none

/-- `difflib.get_close_matches(word, possibilities, n=1, cutoff=0.6)`,
first element: keep the possibilities whose ratio against `word` is at
least `0.6`, then take the largest `(ratio, possibility)` pair. -/
def getCloseMatches1 (word : String) (possibilities : List String) :
    Option String :=
  let candidates := possibilities.filterMap
    (fun x =>
      let r := ratioPair x word
      if cutoffLe r then Option.some (r, x) else Option.none)
  (nlargest1 candidates).map Prod.snd

/-- Tier 1 of `_find_service_by_name` (lines 200–204): exact
case-insensitive name equality. -/
def tier1 (nameQuery : String) (s : Service) : Bool :=
  pyLower s.name = pyLower nameQuery

/-- Tier 2 of `_find_service_by_name` (lines 206–211): substring
containment either direction on lowered names. -/
def tier2 (nameQuery : String) (s : Service) : Bool :=
  strContains (pyLower s.name) (pyLower nameQuery) ||
    strContains (pyLower nameQuery) (pyLower s.name)

/-- `DiscoveryLogic._find_service_by_name` (lines 183–223): first service
matching tier 1, else first matching tier 2, else the
`get_close_matches` winner resolved back to the first service bearing
that exact name. -/
def findServiceByName (services : List Service) (nameQuery : String) :
    Option Service :=
  match services.find? (tier1 nameQuery) with
  | Option.some s => Option.some s
  | Option.none =>
      match services.find? (tier2 nameQuery) with
      | Option.some s => Option.some s
      | Option.none =>
          match getCloseMatches1 nameQuery (services.map Service.name) with
          | Option.some matchedName =>
              services.find? (fun s => s.name = matchedName)
          | Option.none => Option.none

/-- The text and tool-call trace of one agent run. -/
structure AttemptResult where
  text : String
  toolCalls : List String
  deriving DecidableEq

/-- `HallucinationDetector.detect_hallucination` (lines 21–51):
hallucinated when no recorded tool call mentions `invoke_service`, or
when a fabrication marker fires.  The second marker (`"I found" and not
invoke_called`) is kept verbatim although it is unreachable past the
early return, exactly as in the source. -/
def detectHallucination (response : String) (toolCallsMade : List String) : Bool :=
  let invokeCalled := toolCallsMade.any (fun c => strContains c "invoke_service")
  if !invokeCalled then true
  else
    let ind1 := strContains response "(PDF not available)" &&
      strContains (pyLower response) "papers"
    let ind2 := strContains response "I found" && !invokeCalled
    let ind3 := strContains response "Lost in the Middle"
    ind1 || ind2 || ind3

/-- The strengthened instruction appended on retries
(`chat_with_retry`, line 83). -/
def strengthenedHint : String :=
  "\n\nIMPORTANT: You MUST call invoke_service to get real data. Do NOT respond without calling it."

/-- The prompt submitted on a given attempt (lines 79–85): the raw query
on attempt 0, the query plus the strengthened instruction afterwards. -/
def promptFor (userQuery : String) (attempt : Nat) : String :=
  if attempt > 0 then userQuery ++ strengthenedHint else userQuery

/-- The loop body of `chat_with_retry` (lines 79–122) from a given
attempt index on, returning the final text and the total number of agent
runs performed.  A non-hallucinated attempt returns immediately; a
hallucinated one retries while `attempt < max_retries`, and at the
ceiling the last-produced response is returned as-is. -/
def chatWithRetryFrom (run : Nat → String → AttemptResult) (userQuery : String)
    (maxRetries : Nat) (attempt : Nat) : String × Nat :=
  if !detectHallucination (run attempt (promptFor userQuery attempt)).text
      (run attempt (promptFor userQuery attempt)).toolCalls then
    ((run attempt (promptFor userQuery attempt)).text, attempt + 1)
  else if h : attempt < maxRetries then
    chatWithRetryFrom run userQuery maxRetries (attempt + 1)
  else ((run attempt (promptFor userQuery attempt)).text, attempt + 1)
termination_by maxRetries - attempt
decreasing_by omega

/-- `chat_with_retry(user_query, ..., max_retries)`: the loop started at
attempt 0. -/
def chatWithRetry (run : Nat → String → AttemptResult) (userQuery : String)
    (maxRetries : Nat) : String × Nat :=
  chatWithRetryFrom run userQuery maxRetries 0

/-! ## Parameter synthesizer

`fast_system.py`, lines 158–175: after discovery, parameters for the
first intent are synthesized from the service name and the raw query —
an arXiv-specific template when the lowered service name contains
`"arxiv"`, else the fixed generic mapping `{"query": user_query,
"limit": 10}`. -/

/-- The parameter-synthesis branch of `run_fast_system`
(`fast_system.py`, lines 158–175). -/
def synthesizeParameters (serviceName userQuery : String) : PyDict :=
  if strContains (pyLower serviceName) "arxiv" then
    [("search_query",
        PyVal.str ("all:" ++
          pyReplace (pyReplace userQuery "Find papers about " "") "Search for " "")),
     ("max_results", PyVal.int 10),
     ("sortBy", PyVal.str "relevance"),
     ("sortOrder", PyVal.str "descending")]
  else
    [("query", PyVal.str userQuery), ("limit", PyVal.int 10)]

/-- The generic fallback as the specification words it ("the first
declared required parameter receives the raw query text, remaining
optional parameters receive their declared defaults"), written here only
to be compared against the code's `synthesizeParameters`. -/
def genericFallbackSpec (intent : IntentMeta) (userQuery : String) : PyDict :=
  match intent.input_parameters.find? (fun p => p.required) with
  | Option.some firstReq =>
      (firstReq.name, PyVal.str userQuery) ::
        (intent.input_parameters.filter (fun p => !p.required)).map
          (fun p => (p.name, p.default))
  | Option.none =>
      (intent.input_parameters.filter (fun p => !p.required)).map
        (fun p => (p.name, p.default))

/-! ## Path templates

Machinery for claim C7: an `endpoint_path` (prefixed by the base URL) is
viewed as a list of chunks, literal text interleaved with `{name}`
tokens; `renderChunks` produces the concrete URL string the code
receives, and the lemmas below relate `substPath` — the code's
`str.replace` loop — to chunk-level substitution. -/

/-- A URL template chunk: literal text or a `{name}` placeholder. -/
inductive Chunk where
  | lit (s : List Char)
  | tok (name : List Char)
  deriving DecidableEq

/-- Characters free of either brace. -/
def braceFree (l : List Char) : Bool :=
  l.all (fun c => c ≠ '{' && c ≠ '}')

/-- Render a chunk list to the concrete character string. -/
def renderChunks : List Chunk → List Char
  | [] => []
  | Chunk.lit s :: r => s ++ renderChunks r
  | Chunk.tok n :: r => '{' :: (n ++ ('}' :: renderChunks r))

/-- Substitute one binding at chunk level: tokens named `m` become the
literal `rep`. -/
def substChunk (m rep : List Char) : Chunk → Chunk
  | Chunk.lit s => Chunk.lit s
  | Chunk.tok n => if n = m then Chunk.lit rep else Chunk.tok n

/-- Apply a whole path bucket at chunk level, in insertion order. -/
def applyBucket (pathParams : PyDict) (chunks : List Chunk) : List Chunk :=
  pathParams.foldl
    (fun cs p => cs.map (substChunk p.1.data (pyStr p.2).data)) chunks

/-- A well-formed template: literal chunks and token names contain no
brace characters. -/
def chunksWF (chunks : List Chunk) : Bool :=
  chunks.all (fun c =>
    match c with
    | Chunk.lit s => braceFree s
    | Chunk.tok n => braceFree n)

/-! ## Helper lemmas -/

/-- Names already flagged missing survive one routing step. -/
theorem mem_missing_routeParam (parameters : PyDict) (b : Buckets)
    (p : ParamSchema) (x : String) (h : x ∈ b.missing) :
    x ∈ (routeParam parameters b p).missing := by
  unfold routeParam
  split_ifs <;> simp_all <;> split_ifs <;> simp_all

/-- Names already flagged missing survive the whole routing loop. -/
theorem mem_missing_foldl (parameters : PyDict) (l : List ParamSchema) :
    ∀ (acc : Buckets) (x : String), x ∈ acc.missing →
      x ∈ (l.foldl (routeParam parameters) acc).missing := by
  induction l with
  | nil => intro acc x h; simpa using h
  | cons q l ih =>
      intro acc x h
      exact ih (routeParam parameters acc q) x (mem_missing_routeParam parameters acc q x h)

/-- A required schema entry whose resolution is `None` is flagged and
otherwise skipped by one routing step. -/
theorem routeParam_required_none (parameters : PyDict) (b : Buckets)
    (p : ParamSchema) (hv : pyDictGet parameters p.name p.default = PyVal.none)
    (hr : p.required = true) :
    routeParam parameters b p = { b with missing := b.missing ++ [p.name] } := by
  unfold routeParam
  simp [hv, hr]

/-- A required schema entry whose resolution is `None` ends up flagged by
the whole routing loop. -/
theorem buildBuckets_flags_missing (parameters : PyDict)
    (l : List ParamSchema) (p : ParamSchema) (hp : p ∈ l)
    (hv : pyDictGet parameters p.name p.default = PyVal.none)
    (hr : p.required = true) :
    ∀ acc : Buckets, p.name ∈ (l.foldl (routeParam parameters) acc).missing := by
  induction l with
  | nil => cases hp
  | cons q l ih =>
      intro acc
      rcases List.mem_cons.mp hp with hq | hq
      · subst hq
        refine mem_missing_foldl parameters l (routeParam parameters acc p) p.name ?_
        rw [routeParam_required_none parameters acc p hv hr]
        simp
      · exact ih hq (routeParam parameters acc q)

/-! ## C2: exclusive authentication injection -/

/-- C2.  For an invocation with `auth_type = "api_key"` and a resolvable,
non-empty key: when `auth_query_param` is set the key is injected only
into the query bucket; otherwise, when `auth_header_name` is set, only
into the header bucket; and in no case does `addAuth` touch both
buckets. -/
theorem auth_injection_exclusive (svc : ServiceMeta)
    (apiKeys : List (String × String)) (query headers : PyDict) (key : String)
    (hAuth : svc.auth_type = "api_key")
    (hKey : getApiKey apiKeys svc.service_url = Option.some key)
    (hNe : key ≠ "") :
    (optTruthy svc.auth_query_param = true →
      addAuth svc apiKeys query headers =
        (dinsert query (svc.auth_query_param.getD "") (PyVal.str key), headers)) ∧
    (optTruthy svc.auth_query_param = false →
      optTruthy svc.auth_header_name = true →
      addAuth svc apiKeys query headers =
        (query, dinsert headers (svc.auth_header_name.getD "") (PyVal.str key))) ∧
    ((addAuth svc apiKeys query headers).1 = query ∨
      (addAuth svc apiKeys query headers).2 = headers) := by
  refine ⟨?_, ?_, ?_⟩
  · intro hq
    simp [addAuth, hAuth, hKey, hNe, hq]
  · intro hq hh
    simp [addAuth, hAuth, hKey, hNe, hq, hh]
  · by_cases hq : optTruthy svc.auth_query_param
    · simp [addAuth, hAuth, hKey, hNe, hq]
    · by_cases hh : optTruthy svc.auth_header_name <;>
        simp [addAuth, hAuth, hKey, hNe, hq, hh]

/-- The OpenWeatherMap service record of the catalogue, as used by the
chatbot (auth key in the query string). -/
def owmService : ServiceMeta :=
  { name := "OpenWeatherMap"
    service_url := "https://api.openweathermap.org/data/2.5"
    auth_type := "api_key"
    auth_query_param := Option.some "appid" }

/-- Witness for C2: invoking OpenWeatherMap with the configured demo key
injects `appid` into the query bucket only. -/
theorem auth_injection_exclusive_witness :
    addAuth owmService [("openweathermap.org", "demo_key")]
        [("q", PyVal.str "Amsterdam")] [] =
      (dinsert [("q", PyVal.str "Amsterdam")] "appid" (PyVal.str "demo_key"), []) := by
  exact (auth_injection_exclusive owmService [("openweathermap.org", "demo_key")]
    [("q", PyVal.str "Amsterdam")] [] "demo_key" rfl (by decide) (by decide)).1 rfl

/-! ## C6: missing required parameters do not abort the invocation -/

/-- C6.  A required `ParameterSpec` with no provided value and no declared
default is flagged in the missing list by its routing step, is omitted
(all four buckets are left unchanged by that step), appears flagged after
the whole loop, and the invocation still dispatches an HTTP request. -/
theorem missing_required_parameter (svc : ServiceMeta) (intent : IntentMeta)
    (parameters : PyDict) (apiKeys : List (String × String))
    (p : ParamSchema) (b : Buckets)
    (hp : p ∈ intent.input_parameters)
    (hv : pyDictGet parameters p.name p.default = PyVal.none)
    (hr : p.required = true)
    (hm : intent.http_method = "GET") :
    routeParam parameters b p = { b with missing := b.missing ++ [p.name] } ∧
    p.name ∈ (buildBuckets intent.input_parameters parameters).missing ∧
    (invokeRequest svc intent parameters apiKeys).isOk = true := by
  refine ⟨routeParam_required_none parameters b p hv hr, ?_, ?_⟩
  · exact buildBuckets_flags_missing parameters intent.input_parameters p hp hv hr {}
  · simp [invokeRequest, dispatch, hm, Except.isOk, Except.toBool]

/-- The arXiv search intent with its required `search_query` parameter. -/
def arxivIntent : IntentMeta :=
  { intent_name := "search_papers"
    http_method := "GET"
    endpoint_path := "/query"
    input_parameters :=
      [{ name := "search_query", location := "query", required := true },
       { name := "max_results", location := "query", required := false,
         default := PyVal.int 10 }] }

/-- The arXiv service record of the catalogue (no authentication). -/
def arxivService : ServiceMeta :=
  { name := "arXiv API", service_url := "http://export.arxiv.org/api" }

/-- Witness for C6: invoking the arXiv search intent with an empty
parameter map flags `search_query` missing, and the call still goes out. -/
theorem missing_required_parameter_witness :
    routeParam [] {} { name := "search_query", location := "query", required := true } =
      { missing := ["search_query"] } ∧
    "search_query" ∈ (buildBuckets arxivIntent.input_parameters []).missing ∧
    (invokeRequest arxivService arxivIntent [] []).isOk = true := by
  exact missing_required_parameter arxivService arxivIntent [] []
    { name := "search_query", location := "query", required := true } {}
    (by simp [arxivIntent]) rfl rfl rfl

/-! ## C10: an explicit `None` suppresses the declared default -/

/-- C10.  When the caller's parameter map explicitly binds a name to
`None`, `parameters.get(name, default)` returns that stored `None`, so
the declared default is not applied: a required parameter is flagged
missing and omitted, an optional one is silently omitted — in both cases
the buckets are untouched, whatever the declared default was. -/
theorem explicit_none_suppresses_default (parameters : PyDict) (b : Buckets)
    (p : ParamSchema)
    (h : parameters.lookup p.name = Option.some PyVal.none) :
    routeParam parameters b p =
      if p.required then { b with missing := b.missing ++ [p.name] } else b := by
  have hv : pyDictGet parameters p.name p.default = PyVal.none := by
    simp [pyDictGet, h]
  cases hr : p.required
  · unfold routeParam
    simp [hv, hr]
  · rw [if_pos rfl]
    exact routeParam_required_none parameters b p hv hr

/-- Witness for C10: a required parameter bound to `None` despite a
declared default `"fallback"` is flagged missing, and an optional one
bound to `None` despite a declared default is silently dropped. -/
theorem explicit_none_suppresses_default_witness :
    routeParam [("q", PyVal.none)] {}
        { name := "q", location := "query", required := true,
          default := PyVal.str "fallback" } =
      { missing := ["q"] } ∧
    routeParam [("page", PyVal.none)] {}
        { name := "page", location := "query", required := false,
          default := PyVal.int 1 } = {} := by
  constructor
  · exact explicit_none_suppresses_default [("q", PyVal.none)] {}
      { name := "q", location := "query", required := true,
        default := PyVal.str "fallback" } rfl
  · exact explicit_none_suppresses_default [("page", PyVal.none)] {}
      { name := "page", location := "query", required := false,
        default := PyVal.int 1 } rfl

/-! ## C3: HTTP method dispatch -/

/-- Counterexample for C3.  The claim lists PATCH among the methods that
are "never rejected as unsupported", but the dispatch chain of `invoke`
has no PATCH arm and raises `ValueError("Unsupported HTTP method:
PATCH")`. -/
theorem method_dispatch_counterexample :
    dispatch "PATCH" "http://example.org/x" [] [] [("a", PyVal.int 1)] =
      Except.error "Unsupported HTTP method: PATCH" := by
  rfl

/-- C3 (amended).  GET, POST, PUT and DELETE are dispatched with their
own method; GET and DELETE never carry a request body; POST carries the
body bucket exactly when it is non-empty; PUT always passes the body
bucket (even when empty); PATCH is rejected as unsupported. -/
theorem method_dispatch_amended (url : String)
    (query headers bodyParams : PyDict) :
    dispatch "GET" url query headers bodyParams =
      Except.ok ⟨"GET", url, query, headers, Option.none⟩ ∧
    dispatch "DELETE" url query headers bodyParams =
      Except.ok ⟨"DELETE", url, query, headers, Option.none⟩ ∧
    dispatch "POST" url query headers bodyParams =
      Except.ok ⟨"POST", url, query, headers,
        if bodyParams.isEmpty then Option.none else Option.some bodyParams⟩ ∧
    dispatch "PUT" url query headers bodyParams =
      Except.ok ⟨"PUT", url, query, headers, Option.some bodyParams⟩ ∧
    dispatch "PATCH" url query headers bodyParams =
      Except.error "Unsupported HTTP method: PATCH" := by
  exact ⟨rfl, rfl, rfl, rfl, rfl⟩

/-! ## C9: the parameter synthesizer's generic fallback -/

/-- A news-search intent whose first declared required parameter is named
`q` (not `query`), with an optional `page` parameter carrying a default. -/
def newsIntent : IntentMeta :=
  { intent_name := "search_news"
    http_method := "GET"
    endpoint_path := "/v2/everything"
    input_parameters :=
      [{ name := "q", location := "query", required := true },
       { name := "page", location := "query", required := false,
         default := PyVal.int 1 }] }

/-- Counterexample for C9.  For a non-arXiv service the synthesizer emits
the fixed map `{"query": ..., "limit": 10}`: the intent's first declared
required parameter `q` receives nothing and the declared default of the
optional `page` is not copied either, contrary to the claimed generic
mapping. -/
theorem synthesizer_fallback_counterexample :
    (genericFallbackSpec newsIntent "bitcoin news").lookup "q" =
      Option.some (PyVal.str "bitcoin news") ∧
    (synthesizeParameters "News API" "bitcoin news").lookup "q" = Option.none ∧
    synthesizeParameters "News API" "bitcoin news" ≠
      genericFallbackSpec newsIntent "bitcoin news" := by
  exact ⟨by decide, by decide, by decide⟩

/-- C9 (amended).  For any service whose lowered name does not contain
`"arxiv"`, the synthesizer falls back to the fixed literal mapping
`{"query": raw query text, "limit": 10}`, ignoring the intent's declared
parameters; in every case it produces a non-empty parameter map and
never fails. -/
theorem synthesizer_fallback_amended (serviceName userQuery : String) :
    (strContains (pyLower serviceName) "arxiv" = false →
      synthesizeParameters serviceName userQuery =
        [("query", PyVal.str userQuery), ("limit", PyVal.int 10)]) ∧
    synthesizeParameters serviceName userQuery ≠ [] := by
  constructor
  · intro h
    simp [synthesizeParameters, h]
  · by_cases h : strContains (pyLower serviceName) "arxiv" <;>
      simp [synthesizeParameters, h]

/-- Witness for C9: the News API fallback map. -/
theorem synthesizer_fallback_amended_witness :
    synthesizeParameters "News API" "bitcoin news" =
      [("query", PyVal.str "bitcoin news"), ("limit", PyVal.int 10)] := by
  exact (synthesizer_fallback_amended "News API" "bitcoin news").1 (by decide)

/-! ## C1: the response normalizer is not total -/

/-- Counterexample for C1.  An HTTP 2xx response whose content type is
`application/json` but whose body is not valid JSON makes
`_parse_json_response` re-raise, so `invoke` raises instead of degrading
to `success: true, format: raw`. -/
theorem normalizer_totality_counterexample :
    normalizeResponse "ExampleService" "some_intent"
        { contentType := "application/json", text := "\x7bnot valid json",
          xmlData := Option.none, jsonData := Option.none } =
      Except.error NormError.jsonParseError := by
  rfl

/-- C1 (amended).  Every result the response handler returns without
raising has `success = true`; but a malformed body on a taken XML or
JSON branch propagates as a raised exception rather than degrading; only
a response matching neither branch is returned as raw text — with
`success: true` and a `content_type` key, not a `format: raw` tag. -/
theorem normalizer_amended (serviceName intentName : String) (r : RawResponse) :
    (∀ res, normalizeResponse serviceName intentName r = Except.ok res →
        res.success = true) ∧
    (xmlBranch r = true → r.xmlData = Option.none →
        normalizeResponse serviceName intentName r =
          Except.error NormError.xmlParseError) ∧
    (xmlBranch r = false → jsonBranch r = true → r.jsonData = Option.none →
        normalizeResponse serviceName intentName r =
          Except.error NormError.jsonParseError) ∧
    (xmlBranch r = false → jsonBranch r = false →
        normalizeResponse serviceName intentName r =
          Except.ok { success := true, data := Option.some r.text,
                      content_type := Option.some r.contentType }) := by
  refine ⟨?_, ?_, ?_, ?_⟩
  · intro res h
    unfold normalizeResponse at h
    split_ifs at h <;>
      [skip; skip; (cases h; rfl)] <;>
      [cases hx : r.xmlData; skip] <;>
      [skip; skip; cases hj : r.jsonData] <;>
      simp_all <;> (cases h; rfl)
  · intro hx hd
    simp [normalizeResponse, hx, hd]
  · intro hx hj hd
    simp [normalizeResponse, hx, hj, hd]
  · intro hx hj
    simp [normalizeResponse, hx, hj]

/-- Witness for C1 (amended): a plain-text response passes through as raw
text with `success: true`, while a malformed Atom body raises. -/
theorem normalizer_amended_witness :
    normalizeResponse "SomeService" "intent_x"
        { contentType := "text/plain", text := "hello world",
          xmlData := Option.none, jsonData := Option.none } =
      Except.ok { success := true, data := Option.some "hello world",
                  content_type := Option.some "text/plain" } ∧
    normalizeResponse "arXiv API" "search_papers"
        { contentType := "application/atom+xml", text := "<feed><broken",
          xmlData := Option.none, jsonData := Option.none } =
      Except.error NormError.xmlParseError := by
  constructor
  · exact (normalizer_amended "SomeService" "intent_x"
      { contentType := "text/plain", text := "hello world",
        xmlData := Option.none, jsonData := Option.none }).2.2.2
      (by decide) (by decide)
  · exact (normalizer_amended "arXiv API" "search_papers"
      { contentType := "application/atom+xml", text := "<feed><broken",
        xmlData := Option.none, jsonData := Option.none }).2.1
      (by decide) rfl

/-! ## C5: the discovery failure modes -/

/-- Whether the agent run of a given attempt is classified as
hallucinated by the detector. -/
def halluAt (run : Nat → String → AttemptResult) (q : String) (i : Nat) : Bool :=
  detectHallucination (run i (promptFor q i)).text (run i (promptFor q i)).toolCalls

/-- The loop never performs more than `maxRetries + 1` runs. -/
theorem chatFrom_runs_le (run : Nat → String → AttemptResult) (q : String)
    (mr : Nat) :
    ∀ fuel att, mr ≤ att + fuel → (chatWithRetryFrom run q mr att).2 ≤ mr + 1 ∨
      (chatWithRetryFrom run q mr att).2 = att + 1 := by
  intro fuel
  induction fuel with
  | zero =>
      intro att h1
      rw [chatWithRetryFrom]
      split_ifs with hdet hlt
      · exact Or.inr rfl
      · omega
      · exact Or.inr rfl
  | succ n ih =>
      intro att h1
      rw [chatWithRetryFrom]
      split_ifs with hdet hlt
      · exact Or.inr rfl
      · rcases ih (att + 1) (by omega) with h | h
        · exact Or.inl h
        · exact Or.inl (by omega)
      · exact Or.inr rfl

/-- Reaching the first non-hallucinated attempt `k` returns its text
after exactly `k + 1` runs. -/
theorem chatFrom_first_ok (run : Nat → String → AttemptResult) (q : String)
    (mr : Nat) :
    ∀ fuel att k, k ≤ mr → att ≤ k → mr ≤ att + fuel →
      (∀ i, att ≤ i → i < k → halluAt run q i = true) →
      halluAt run q k = false →
      chatWithRetryFrom run q mr att = ((run k (promptFor q k)).text, k + 1) := by
  intro fuel
  induction fuel with
  | zero =>
      intro att k hk hak h1 hprev hok
      have hae : att = k := by omega
      subst hae
      rw [chatWithRetryFrom]
      rw [show detectHallucination (run att (promptFor q att)).text
            (run att (promptFor q att)).toolCalls = false from hok]
      simp
  | succ n ih =>
      intro att k hk hak h1 hprev hok
      rcases Nat.eq_or_lt_of_le hak with hae | hlt
      · subst hae
        rw [chatWithRetryFrom]
        rw [show detectHallucination (run att (promptFor q att)).text
              (run att (promptFor q att)).toolCalls = false from hok]
        simp
      · have hcur : halluAt run q att = true := hprev att le_rfl hlt
        rw [chatWithRetryFrom]
        rw [show detectHallucination (run att (promptFor q att)).text
              (run att (promptFor q att)).toolCalls = true from hcur]
        have haml : att < mr := by omega
        simp only [Bool.not_true, Bool.false_eq_true, if_false, dif_pos haml]
        exact ih (att + 1) k hk (by omega) (by omega)
          (fun i hi1 hi2 => hprev i (by omega) hi2) hok

/-- When every attempt up to the ceiling is hallucinated, the loop
returns the last attempt's text after `mr + 1` runs. -/
theorem chatFrom_exhausted (run : Nat → String → AttemptResult) (q : String)
    (mr : Nat) :
    ∀ fuel att, att ≤ mr → mr ≤ att + fuel →
      (∀ i, att ≤ i → i ≤ mr → halluAt run q i = true) →
      chatWithRetryFrom run q mr att =
        ((run mr (promptFor q mr)).text, mr + 1) := by
  intro fuel
  induction fuel with
  | zero =>
      intro att ham h1 hall
      have hae : att = mr := by omega
      subst hae
      rw [chatWithRetryFrom]
      rw [show detectHallucination (run att (promptFor q att)).text
            (run att (promptFor q att)).toolCalls = true from hall att le_rfl le_rfl]
      simp
  | succ n ih =>
      intro att ham h1 hall
      rcases Nat.eq_or_lt_of_le ham with hae | hlt
      · subst hae
        rw [chatWithRetryFrom]
        rw [show detectHallucination (run att (promptFor q att)).text
              (run att (promptFor q att)).toolCalls = true from hall att le_rfl le_rfl]
        simp
      · rw [chatWithRetryFrom]
        rw [show detectHallucination (run att (promptFor q att)).text
              (run att (promptFor q att)).toolCalls = true from hall att le_rfl (by omega)]
        simp only [Bool.not_true, Bool.false_eq_true, if_false, dif_pos hlt]
        exact ih (att + 1) (by omega) (by omega)
          (fun i hi1 hi2 => hall i (by omega) hi2)

/-- C8.  The retry guard performs at most `maxRetries + 1` runs; the
first attempt whose trace makes the detector pass is returned
immediately with its run count; a hallucinated attempt below the ceiling
retries with the strengthened instruction appended to the prompt; and
when every attempt up to the ceiling is hallucinated, the last-produced
response is still returned rather than a failure. -/
theorem hallucination_retry_guard (run : Nat → String → AttemptResult)
    (userQuery : String) (maxRetries : Nat) :
    (chatWithRetry run userQuery maxRetries).2 ≤ maxRetries + 1 ∧
    (∀ k, k ≤ maxRetries →
      (∀ i, i < k → halluAt run userQuery i = true) →
      halluAt run userQuery k = false →
      chatWithRetry run userQuery maxRetries =
        ((run k (promptFor userQuery k)).text, k + 1)) ∧
    ((∀ i, i ≤ maxRetries → halluAt run userQuery i = true) →
      chatWithRetry run userQuery maxRetries =
        ((run maxRetries (promptFor userQuery maxRetries)).text, maxRetries + 1)) ∧
    (∀ n, 0 < n → promptFor userQuery n = userQuery ++ strengthenedHint) := by
  refine ⟨?_, ?_, ?_, ?_⟩
  · rcases chatFrom_runs_le run userQuery maxRetries maxRetries 0 (by omega) with h | h
    · exact h
    · rw [chatWithRetry, h]; omega
  · intro k hk hprev hok
    exact chatFrom_first_ok run userQuery maxRetries maxRetries 0 k hk (by omega)
      (by omega) (fun i _ hi2 => hprev i hi2) hok
  · intro hall
    exact chatFrom_exhausted run userQuery maxRetries maxRetries 0 (by omega)
      (by omega) (fun i _ hi2 => hall i hi2)
  · intro n hn
    simp [promptFor, hn]

/-- A demonstration oracle: attempt 0 fabricates without calling the
invocation tool, attempt 1 records an `invoke_service` call. -/
def guardDemoRun : Nat → String → AttemptResult :=
  fun i _ =>
    if i = 0 then { text := "Here are papers (PDF not available)", toolCalls := [] }
    else { text := "Found 3 results via the API", toolCalls := ["invoke_service"] }

/-- Witness for C8: with the demonstration oracle and a ceiling of 2, the
guard retries once and returns the second attempt's verified text after
two runs. -/
theorem hallucination_retry_guard_witness :
    chatWithRetry guardDemoRun "find recent papers" 2 =
      ("Found 3 results via the API", 2) := by
  exact (hallucination_retry_guard guardDemoRun "find recent papers" 2).2.1 1
    (by omega)
    (fun i hi => by
      have h0 : i = 0 := by omega
      subst h0
      decide)
    (by decide)

/-! ## C4: tiered name resolution and its tie-breaking -/

/-- The denominator of a ratio fraction is always positive. -/
theorem ratioPair_den_pos (a b : String) : 0 < (ratioPair a b).2 := by
  unfold ratioPair
  split <;> simp <;> omega

/-- Lexicographic character comparison is irreflexive. -/
theorem charListLt_irrefl : ∀ l, charListLt l l = false := by
  intro l
  induction l with
  | nil => rfl
  | cons c cs ih => simp [charListLt, ih]

/-- Lexicographic character comparison is transitive. -/
theorem charListLt_trans :
    ∀ a b c, charListLt a b = true → charListLt b c = true →
      charListLt a c = true := by
  intro a
  induction a with
  | nil =>
      intro b c hab hbc
      cases b with
      | nil => simp [charListLt] at hab
      | cons y ys =>
          cases c with
          | nil => simp [charListLt] at hbc
          | cons z zs => simp [charListLt]
  | cons x xs ih =>
      intro b c hab hbc
      cases b with
      | nil => simp [charListLt] at hab
      | cons y ys =>
          cases c with
          | nil => simp [charListLt] at hbc
          | cons z zs =>
              unfold charListLt at hab hbc ⊢
              rcases Nat.lt_trichotomy x.toNat y.toNat with h1 | h1 | h1
              · rcases Nat.lt_trichotomy y.toNat z.toNat with h2 | h2 | h2
                · simp [show x.toNat < z.toNat by omega]
                · simp [show x.toNat < z.toNat by omega]
                · simp [show ¬y.toNat < z.toNat by omega, h2] at hbc
              · rcases Nat.lt_trichotomy y.toNat z.toNat with h2 | h2 | h2
                · simp [show x.toNat < z.toNat by omega]
                · have hxz : ¬x.toNat < z.toNat := by omega
                  have hzx : ¬z.toNat < x.toNat := by omega
                  simp [show ¬x.toNat < y.toNat by omega,
                        show ¬y.toNat < x.toNat by omega] at hab
                  simp [show ¬y.toNat < z.toNat by omega,
                        show ¬z.toNat < y.toNat by omega] at hbc
                  simp [hxz, hzx]
                  exact ih ys zs hab hbc
                · simp [show ¬y.toNat < z.toNat by omega, h2] at hbc
              · simp [show ¬x.toNat < y.toNat by omega, h1] at hab

/-- Cross-multiplication `<` is transitive on fractions with positive
denominators. -/
theorem ratioLtB_trans {p q r : Nat × Nat} (hp : 0 < p.2) (hq : 0 < q.2)
    (hr : 0 < r.2) (h1 : ratioLtB p q = true) (h2 : ratioLtB q r = true) :
    ratioLtB p r = true := by
  simp only [ratioLtB, decide_eq_true_eq] at h1 h2 ⊢
  nlinarith [Nat.mul_lt_mul_of_lt_of_le h1 (Nat.le_refl r.2) hr,
    Nat.mul_lt_mul_of_lt_of_le h2 (Nat.le_refl p.2) hp]

/-- `<` then `=` composes to `<` on fractions with positive
denominators. -/
theorem ratioLtB_of_lt_of_eq {p q r : Nat × Nat} (hq : 0 < q.2)
    (hr : 0 < r.2) (h1 : ratioLtB p q = true) (h2 : ratioEqB q r = true) :
    ratioLtB p r = true := by
  simp only [ratioLtB, ratioEqB, decide_eq_true_eq] at h1 h2 ⊢
  nlinarith [Nat.mul_lt_mul_of_lt_of_le h1 (Nat.le_refl r.2) hr]

/-- `=` then `<` composes to `<` on fractions with positive
denominators. -/
theorem ratioLtB_of_eq_of_lt {p q r : Nat × Nat} (hp : 0 < p.2)
    (hq : 0 < q.2) (h1 : ratioEqB p q = true) (h2 : ratioLtB q r = true) :
    ratioLtB p r = true := by
  simp only [ratioLtB, ratioEqB, decide_eq_true_eq] at h1 h2 ⊢
  nlinarith [Nat.mul_lt_mul_of_lt_of_le h2 (Nat.le_refl p.2) hp]

/-- Cross-multiplication equality is transitive on fractions with
positive denominators. -/
theorem ratioEqB_trans {p q r : Nat × Nat} (hq : 0 < q.2)
    (h1 : ratioEqB p q = true) (h2 : ratioEqB q r = true) :
    ratioEqB p r = true := by
  simp only [ratioEqB, decide_eq_true_eq] at h1 h2 ⊢
  have key : q.2 * (p.1 * r.2) = q.2 * (r.1 * p.2) := by
    calc q.2 * (p.1 * r.2) = p.1 * q.2 * r.2 := by ring
    _ = q.1 * p.2 * r.2 := by rw [h1]
    _ = q.1 * r.2 * p.2 := by ring
    _ = r.1 * q.2 * p.2 := by rw [h2]
    _ = q.2 * (r.1 * p.2) := by ring
  exact Nat.eq_of_mul_eq_mul_left hq key

/-- The Python tuple order on `(score, name)` pairs is irreflexive. -/
theorem scoreNameLt_irrefl (p : (Nat × Nat) × String) :
    scoreNameLt p p = false := by
  simp [scoreNameLt, ratioLtB, ratioEqB, charListLt_irrefl]

/-- The Python tuple order on `(score, name)` pairs is transitive when
all score denominators are positive. -/
theorem scoreNameLt_trans {p q r : (Nat × Nat) × String} (hp : 0 < p.1.2)
    (hq : 0 < q.1.2) (hr : 0 < r.1.2)
    (h1 : scoreNameLt p q = true) (h2 : scoreNameLt q r = true) :
    scoreNameLt p r = true := by
  simp only [scoreNameLt, Bool.or_eq_true, Bool.and_eq_true] at h1 h2 ⊢
  rcases h1 with h1 | ⟨h1e, h1l⟩ <;> rcases h2 with h2 | ⟨h2e, h2l⟩
  · exact Or.inl (ratioLtB_trans hp hq hr h1 h2)
  · exact Or.inl (ratioLtB_of_lt_of_eq hq hr h1 h2e)
  · exact Or.inl (ratioLtB_of_eq_of_lt hp hq h1e h2)
  · exact Or.inr ⟨ratioEqB_trans hq h1e h2e, charListLt_trans _ _ _ h1l h2l⟩

/-- The Python tuple order is asymmetric when denominators are
positive. -/
theorem scoreNameLt_asymm {p q : (Nat × Nat) × String} (hp : 0 < p.1.2)
    (hq : 0 < q.1.2) (h : scoreNameLt p q = true) :
    scoreNameLt q p = false := by
  by_contra hc
  rw [Bool.not_eq_false] at hc
  have := scoreNameLt_trans hp hq hp h hc
  rw [scoreNameLt_irrefl] at this
  exact Bool.false_ne_true this

/-- The running maximum of the `nlargest` fold: the result comes from the
accumulator or the list, dominates the accumulator, and no processed
element strictly exceeds it. -/
theorem nlargest1_go (l : List ((Nat × Nat) × String)) :
    ∀ acc res, (∀ r ∈ l, 0 < r.1.2) → (∀ a, acc = Option.some a → 0 < a.1.2) →
      l.foldl nlStep acc = Option.some res →
      ((acc = Option.some res ∨ res ∈ l) ∧
       (∀ a, acc = Option.some a → (a = res ∨ scoreNameLt a res = true)) ∧
       (∀ r ∈ l, scoreNameLt res r = false)) := by
  induction l with
  | nil =>
      intro acc res hl hacc h
      simp only [List.foldl_nil] at h
      refine ⟨Or.inl h, fun a ha => ?_, fun r hr => absurd hr (List.not_mem_nil r)⟩
      rw [h] at ha
      exact Or.inl (Option.some.inj ha).symm
  | cons x l ih =>
      intro acc res hl hacc h
      have hx : 0 < x.1.2 := hl x (List.mem_cons_self x l)
      have hl' : ∀ r ∈ l, 0 < r.1.2 := fun r hr => hl r (List.mem_cons_of_mem x hr)
      have hacc' : ∀ a, nlStep acc x = Option.some a → 0 < a.1.2 := by
        intro a ha
        cases acc with
        | none =>
            simp only [nlStep] at ha
            rw [← Option.some.inj ha]
            exact hx
        | some q =>
            simp only [nlStep] at ha
            split at ha
            · rw [← Option.some.inj ha]; exact hx
            · rw [← Option.some.inj ha]; exact hacc q rfl
      rw [List.foldl_cons] at h
      obtain ⟨H1, H2, H3⟩ := ih (nlStep acc x) res hl' hacc' h
      have hres : 0 < res.1.2 := by
        rcases H1 with h1 | h1
        · exact hacc' res h1
        · exact hl' res h1
      have res_ge_x : scoreNameLt res x = false := by
        cases acc with
        | none =>
            rcases H2 x (by simp [nlStep]) with he | hlt
            · rw [he, scoreNameLt_irrefl]
            · exact scoreNameLt_asymm hx hres hlt
        | some q =>
            by_cases hqx : scoreNameLt q x = true
            · rcases H2 x (by simp [nlStep, hqx]) with he | hlt
              · rw [he, scoreNameLt_irrefl]
              · exact scoreNameLt_asymm hx hres hlt
            · have hqx' : scoreNameLt q x = false := by
                rw [← Bool.not_eq_true]; exact hqx
              rcases H2 q (by simp [nlStep, hqx']) with he | hlt
              · rw [he] at hqx'; exact hqx'
              · by_contra hc
                rw [Bool.not_eq_false] at hc
                have : scoreNameLt q x = true :=
                  scoreNameLt_trans (hacc q rfl) hres hx hlt hc
                exact hqx this
      refine ⟨?_, ?_, ?_⟩
      · rcases H1 with h1 | h1
        · cases acc with
          | none =>
              simp only [nlStep] at h1
              exact Or.inr (by rw [← Option.some.inj h1]; exact List.mem_cons_self x l)
          | some q =>
              simp only [nlStep] at h1
              split at h1
              · exact Or.inr (by rw [← Option.some.inj h1]; exact List.mem_cons_self x l)
              · exact Or.inl h1
        · exact Or.inr (List.mem_cons_of_mem x h1)
      · intro a ha
        subst ha
        by_cases hax : scoreNameLt a x = true
        · rcases H2 x (by simp [nlStep, hax]) with he | hlt
          · exact Or.inr (by rw [← he]; exact hax)
          · exact Or.inr (scoreNameLt_trans (hacc a rfl) hx hres hax hlt)
        · have hax' : scoreNameLt a x = false := by
            rw [← Bool.not_eq_true]; exact hax
          exact H2 a (by simp [nlStep, hax'])
      · intro r hr
        rcases List.mem_cons.mp hr with he | hm
        · rw [he]; exact res_ge_x
        · exact H3 r hm

/-- The `get_close_matches` winner is an eligible possibility that no
other eligible possibility strictly exceeds in the `(ratio, name)` tuple
order — in particular, on ratio ties the winner's name is
lexicographically greatest. -/
theorem getCloseMatches1_max (word : String) (possibilities : List String)
    (m : String) (h : getCloseMatches1 word possibilities = Option.some m) :
    m ∈ possibilities ∧ cutoffLe (ratioPair m word) = true ∧
      ∀ x ∈ possibilities, cutoffLe (ratioPair x word) = true →
        scoreNameLt (ratioPair m word, m) (ratioPair x word, x) = false := by
  unfold getCloseMatches1 at h
  rw [Option.map_eq_some'] at h
  obtain ⟨p, hp, hpm⟩ := h
  have hpos : ∀ r ∈ possibilities.filterMap
      (fun x => if cutoffLe (ratioPair x word) then
        Option.some (ratioPair x word, x) else Option.none), 0 < r.1.2 := by
    intro r hr
    rw [List.mem_filterMap] at hr
    obtain ⟨x, _, hx⟩ := hr
    split at hx
    · rw [← Option.some.inj hx]
      exact ratioPair_den_pos x word
    · cases hx
  obtain ⟨H1, _, H3⟩ := nlargest1_go _ Option.none p hpos (by intro a ha; cases ha) hp
  have hmem : p ∈ possibilities.filterMap
      (fun x => if cutoffLe (ratioPair x word) then
        Option.some (ratioPair x word, x) else Option.none) := by
    rcases H1 with h1 | h1
    · cases h1
    · exact h1
  rw [List.mem_filterMap] at hmem
  obtain ⟨x, hxmem, hx⟩ := hmem
  split at hx
  case isTrue hcut =>
    have hpx : p = (ratioPair x word, x) := (Option.some.inj hx).symm
    have hxm : x = m := by rw [hpx] at hpm; exact hpm
    subst hxm
    refine ⟨hxmem, hcut, ?_⟩
    intro y hy hcuty
    have hymem : (ratioPair y word, y) ∈ possibilities.filterMap
        (fun x => if cutoffLe (ratioPair x word) then
          Option.some (ratioPair x word, x) else Option.none) := by
      rw [List.mem_filterMap]
      exact ⟨y, hy, by rw [if_pos hcuty]⟩
    have := H3 (ratioPair y word, y) hymem
    rw [hpx] at this
    exact this
  case isFalse => cases hx

/-- The tiered match as the specification words it — identical tiers, but
with tier-3 ties broken by catalogue iteration order (the first service,
in catalogue order, holding the maximal eligible ratio).  Written only to
be compared against the code's `findServiceByName`. -/
def findServiceByNameSpecTie (services : List Service) (nameQuery : String) :
    Option Service :=
  match services.find? (tier1 nameQuery) with
  | Option.some s => Option.some s
  | Option.none =>
      match services.find? (tier2 nameQuery) with
      | Option.some s => Option.some s
      | Option.none =>
          (services.filter (fun s => cutoffLe (ratioPair s.name nameQuery))).foldl
            (fun acc s =>
              match acc with
              | Option.none => Option.some s
              | Option.some t =>
                  if ratioLtB (ratioPair t.name nameQuery)
                      (ratioPair s.name nameQuery) then
                    Option.some s
                  else acc)
            Option.none

/-- Counterexample for C4.  Catalogue `["cap", "car"]`, query `"cat"`: no
exact or substring tier matches, both names have fuzzy ratio exactly
`2/3 ≥ 0.6`, yet the code returns `"car"` — `heapq.nlargest` on
`(score, name)` tuples breaks the ratio tie towards the lexicographically
greater name — while catalogue-iteration-order tie-breaking, as the
claim states it, would return `"cap"`. -/
theorem fuzzy_tiebreak_counterexample :
    findServiceByName [⟨"cap", 0⟩, ⟨"car", 1⟩] "cat" =
      Option.some ⟨"car", 1⟩ ∧
    findServiceByNameSpecTie [⟨"cap", 0⟩, ⟨"car", 1⟩] "cat" =
      Option.some ⟨"cap", 0⟩ ∧
    ratioEqB (ratioPair "cap" "cat") (ratioPair "car" "cat") = true ∧
    cutoffLe (ratioPair "cap" "cat") = true ∧
    findServiceByName [⟨"cap", 0⟩, ⟨"car", 1⟩] "cat" ≠
      findServiceByNameSpecTie [⟨"cap", 0⟩, ⟨"car", 1⟩] "cat" := by
  exact ⟨by decide, by decide, by decide, by decide, by decide⟩

/-- C4 (amended).  The three tiers apply in strict order — the first
service in catalogue order matching tier 1 (exact case-insensitive
equality) wins; else the first matching tier 2 (substring containment
either direction); else the `get_close_matches` fuzzy winner, resolved
to the first service bearing that name — so a lower-tier candidate never
wins over an existing higher-tier match, and ties in tiers 1 and 2 fall
to catalogue order; but the tier-3 winner is the eligible name (ratio at
least 0.6) that no other eligible name strictly exceeds in the
`(ratio, name)` tuple order: ratio ties fall to the lexicographically
greatest name, not to catalogue order. -/
theorem tiered_match_amended (services : List Service) (q : String) :
    (∀ s, services.find? (tier1 q) = Option.some s →
        findServiceByName services q = Option.some s) ∧
    (services.find? (tier1 q) = Option.none →
      ∀ s, services.find? (tier2 q) = Option.some s →
        findServiceByName services q = Option.some s) ∧
    (services.find? (tier1 q) = Option.none →
      services.find? (tier2 q) = Option.none →
      ∀ m, getCloseMatches1 q (services.map Service.name) = Option.some m →
        findServiceByName services q = services.find? (fun s => s.name = m) ∧
        m ∈ services.map Service.name ∧
        cutoffLe (ratioPair m q) = true ∧
        (∀ x ∈ services.map Service.name, cutoffLe (ratioPair x q) = true →
          scoreNameLt (ratioPair m q, m) (ratioPair x q, x) = false)) ∧
    (services.find? (tier1 q) = Option.none →
      services.find? (tier2 q) = Option.none →
      getCloseMatches1 q (services.map Service.name) = Option.none →
      findServiceByName services q = Option.none) := by
  refine ⟨?_, ?_, ?_, ?_⟩
  · intro s hs
    unfold findServiceByName
    rw [hs]
  · intro h1 s hs
    unfold findServiceByName
    rw [h1, hs]
  · intro h1 h2 m hm
    obtain ⟨hmem, hcut, hmax⟩ := getCloseMatches1_max q (services.map Service.name) m hm
    refine ⟨?_, hmem, hcut, hmax⟩
    unfold findServiceByName
    rw [h1, h2, hm]
  · intro h1 h2 h3
    unfold findServiceByName
    rw [h1, h2, h3]

/-- Witness for C4 (amended): on the `["cap", "car"]` catalogue with
query `"cat"`, tiers 1 and 2 are empty and the fuzzy winner resolves to
the `"car"` record; on a catalogue with an exact match, tier 1 wins even
though a later name would also match tier 2. -/
theorem tiered_match_amended_witness :
    findServiceByName [⟨"cap", 0⟩, ⟨"car", 1⟩] "cat" =
      List.find? (fun s => s.name = "car") [⟨"cap", 0⟩, ⟨"car", 1⟩] ∧
    findServiceByName [⟨"Weather", 0⟩, ⟨"Weather Pro", 1⟩] "weather" =
      Option.some ⟨"Weather", 0⟩ := by
  constructor
  · exact ((tiered_match_amended [⟨"cap", 0⟩, ⟨"car", 1⟩] "cat").2.2.1
      (by decide) (by decide) "car" (by decide)).1
  · exact (tiered_match_amended [⟨"Weather", 0⟩, ⟨"Weather Pro", 1⟩] "weather").1
      ⟨"Weather", 0⟩ (by decide)

/-! ## C7: path-token substitution -/

/-- `replaceList` on the empty string. -/
theorem replaceList_nil (pat rep : List Char) : replaceList pat rep [] = [] := by
  rw [replaceList]

/-- Unfold one step of `replaceList` when the pattern matches at the
head. -/
theorem replaceList_cons_pos (pat rep : List Char) (c : Char) (s : List Char)
    (hne : pat ≠ []) (hp : pat.isPrefixOf (c :: s) = true) :
    replaceList pat rep (c :: s) =
      rep ++ replaceList pat rep ((c :: s).drop pat.length) := by
  rw [replaceList]
  rw [dif_pos ⟨hne, hp⟩]

/-- Unfold one step of `replaceList` when the pattern does not match at
the head. -/
theorem replaceList_cons_neg (pat rep : List Char) (c : Char) (s : List Char)
    (hp : pat.isPrefixOf (c :: s) = false) :
    replaceList pat rep (c :: s) = c :: replaceList pat rep s := by
  rw [replaceList]
  rw [dif_neg]
  intro h
  rw [hp] at h
  exact Bool.false_ne_true h.2

/-- A brace-delimited pattern cannot begin inside brace-free text. -/
theorem replaceList_braceFree_append (m rep : List Char) :
    ∀ s t, braceFree s = true →
      replaceList ('{' :: m) rep (s ++ t) =
        s ++ replaceList ('{' :: m) rep t := by
  intro s
  induction s with
  | nil => intro t _; rfl
  | cons c s ih =>
      intro t hbf
      simp only [braceFree, List.all_cons, Bool.and_eq_true,
        decide_eq_true_eq] at hbf
      have hc : c ≠ '{' := hbf.1.1
      have hs : braceFree s = true := hbf.2
      have hpre : ('{' :: m).isPrefixOf (c :: (s ++ t)) = false := by
        simp [List.isPrefixOf]
        intro he
        exact absurd he.symm hc
      rw [List.cons_append, replaceList_cons_neg _ _ _ _ hpre, ih t hs]
      simp

/-- Two distinct brace-free token names cannot shadow one another:
`name}` is never a prefix of `other}…`. -/
theorem token_no_shadow :
    ∀ (m n : List Char) t, braceFree m = true → braceFree n = true →
      m ≠ n → (m ++ ['}']).isPrefixOf (n ++ '}' :: t) = false := by
  intro m
  induction m with
  | nil =>
      intro n t _ hn hne
      cases n with
      | nil => exact absurd rfl hne
      | cons d n' =>
          simp only [braceFree, List.all_cons, Bool.and_eq_true,
            decide_eq_true_eq] at hn
          have hd : d ≠ '}' := hn.1.2
          rw [List.nil_append, List.cons_append]
          simp [List.isPrefixOf]
          intro he
          exact absurd he.symm hd
  | cons c m' ih =>
      intro n t hm hn hne
      simp only [braceFree, List.all_cons, Bool.and_eq_true,
        decide_eq_true_eq] at hm
      have hc : c ≠ '}' := hm.1.2
      have hmtail : braceFree m' = true := hm.2
      cases n with
      | nil =>
          rw [List.cons_append, List.nil_append]
          simp [List.isPrefixOf]
          intro he
          exact absurd he hc
      | cons d n' =>
          simp only [braceFree, List.all_cons, Bool.and_eq_true,
            decide_eq_true_eq] at hn
          have hntail : braceFree n' = true := hn.2
          by_cases hcd : c = d
          · subst hcd
            have hne' : m' ≠ n' := by
              intro he
              exact hne (by rw [he])
            rw [List.cons_append, List.cons_append]
            simp only [List.isPrefixOf]
            rw [ih n' t hmtail hntail hne']
            simp
          · rw [List.cons_append, List.cons_append]
            simp only [List.isPrefixOf]
            simp [hcd]

/-- `name}` is a prefix of `name}…`. -/
theorem token_self_pre : ∀ (m : List Char) (t : List Char),
    (m ++ ['}']).isPrefixOf (m ++ ('}' :: t)) = true := by
  intro m t
  induction m with
  | nil => simp [List.isPrefixOf]
  | cons c m ih => simpa [List.isPrefixOf] using ih

/-- Dropping a matched token's length lands exactly after the token. -/
theorem drop_token : ∀ (m : List Char) (t : List Char),
    (m ++ ('}' :: t)).drop (m.length + 1) = t := by
  intro m t
  induction m with
  | nil => simp
  | cons c m ih => simpa [List.drop_succ_cons] using ih

/-- One `str.replace` pass over a rendered template substitutes exactly
the tokens bearing the replaced name. -/
theorem replaceList_render (m rep : List Char) (hm : braceFree m = true) :
    ∀ chunks, chunksWF chunks = true →
      replaceList ('{' :: (m ++ ['}'])) rep (renderChunks chunks) =
        renderChunks (chunks.map (substChunk m rep)) := by
  intro chunks
  induction chunks with
  | nil =>
      intro _
      simp [renderChunks, replaceList_nil]
  | cons c r ih =>
      intro hwf
      simp only [chunksWF, List.all_cons, Bool.and_eq_true] at hwf
      have hwf_r : chunksWF r = true := hwf.2
      cases c with
      | lit s =>
          have hs : braceFree s = true := hwf.1
          simp only [renderChunks, List.map_cons, substChunk]
          rw [replaceList_braceFree_append (m ++ ['}']) rep s _ hs]
          rw [ih hwf_r]
      | tok n =>
          have hn : braceFree n = true := hwf.1
          by_cases hnm : n = m
          · subst hnm
            simp only [renderChunks, List.map_cons, substChunk, if_pos rfl]
            have hp : ('{' :: (n ++ ['}'])).isPrefixOf
                ('{' :: (n ++ ('}' :: renderChunks r))) = true := by
              simp only [List.isPrefixOf, Bool.and_eq_true, beq_self_eq_true,
                true_and]
              exact token_self_pre n (renderChunks r)
            rw [replaceList_cons_pos _ _ _ _ (by simp) hp]
            rw [show ('{' :: (n ++ ['}'])).length = n.length + 1 + 1 by
              simp [List.length_append]]
            rw [List.drop_succ_cons]
            rw [drop_token n (renderChunks r)]
            rw [ih hwf_r]
          · have hmn : m ≠ n := fun he => hnm he.symm
            simp only [renderChunks, List.map_cons, substChunk, if_neg hnm]
            have hpre : ('{' :: (m ++ ['}'])).isPrefixOf
                ('{' :: (n ++ ('}' :: renderChunks r))) = false := by
              simp only [List.isPrefixOf, beq_self_eq_true, Bool.true_and]
              exact token_no_shadow m n (renderChunks r) hm hn hmn
            rw [replaceList_cons_neg _ _ _ _ hpre]
            rw [replaceList_braceFree_append (m ++ ['}']) rep n _ hn]
            have hpre2 : ('{' :: (m ++ ['}'])).isPrefixOf
                ('}' :: renderChunks r) = false := by
              simp [List.isPrefixOf]
            rw [replaceList_cons_neg _ _ _ _ hpre2]
            rw [ih hwf_r]

/-- Substituting a brace-free replacement preserves template
well-formedness. -/
theorem chunksWF_map_subst (m rep : List Char) (hrep : braceFree rep = true) :
    ∀ chunks, chunksWF chunks = true →
      chunksWF (chunks.map (substChunk m rep)) = true := by
  intro chunks
  induction chunks with
  | nil => intro _; rfl
  | cons c r ih =>
      intro hwf
      simp only [chunksWF, List.all_cons, Bool.and_eq_true] at hwf ⊢
      rw [List.map_cons]
      simp only [List.all_cons, Bool.and_eq_true]
      refine ⟨?_, ih hwf.2⟩
      cases c with
      | lit s => exact hwf.1
      | tok n =>
          by_cases hnm : n = m
          · simp [substChunk, hnm, hrep]
          · simp only [substChunk, if_neg hnm]
            exact hwf.1

/-- The data of the brace-delimited pattern string built by the
substitution loop. -/
theorem pat_data (k : String) :
    ("\x7b" ++ k ++ "\x7d").data = '{' :: (k.data ++ ['}']) := by
  rw [String.data_append, String.data_append]
  simp

/-- The `str.replace` fold of `invoke` equals bucket application at
template level. -/
theorem substPath_render :
    ∀ (bucket : PyDict) (chunks : List Chunk), chunksWF chunks = true →
      (∀ p ∈ bucket, braceFree p.1.data = true) →
      (∀ p ∈ bucket, braceFree (pyStr p.2).data = true) →
      (substPath ⟨renderChunks chunks⟩ bucket).data =
        renderChunks (applyBucket bucket chunks) := by
  intro bucket
  induction bucket with
  | nil => intro chunks _ _ _; rfl
  | cons p rest ih =>
      intro chunks hwf hkeys hvals
      have hk : braceFree p.1.data = true := hkeys p (List.mem_cons_self p rest)
      have hv : braceFree (pyStr p.2).data = true := hvals p (List.mem_cons_self p rest)
      have step : pyReplace ⟨renderChunks chunks⟩ ("\x7b" ++ p.1 ++ "\x7d") (pyStr p.2) =
          ⟨renderChunks (chunks.map (substChunk p.1.data (pyStr p.2).data))⟩ := by
        unfold pyReplace
        rw [pat_data]
        rw [replaceList_render p.1.data (pyStr p.2).data hk chunks hwf]
      show (substPath (pyReplace ⟨renderChunks chunks⟩ ("\x7b" ++ p.1 ++ "\x7d") (pyStr p.2))
          rest).data = _
      rw [step]
      rw [ih (chunks.map (substChunk p.1.data (pyStr p.2).data))
        (chunksWF_map_subst p.1.data (pyStr p.2).data hv chunks hwf)
        (fun q hq => hkeys q (List.mem_cons_of_mem p hq))
        (fun q hq => hvals q (List.mem_cons_of_mem p hq))]
      rfl

/-- After applying a bucket binding every token name, no token chunk
remains. -/
theorem applyBucket_no_tok :
    ∀ (bucket : PyDict) (chunks : List Chunk),
      (∀ n, Chunk.tok n ∈ chunks → ∃ p ∈ bucket, p.1.data = n) →
      ∀ n, Chunk.tok n ∉ applyBucket bucket chunks := by
  intro bucket
  induction bucket with
  | nil =>
      intro chunks htok n hmem
      obtain ⟨p, hp, _⟩ := htok n hmem
      exact absurd hp (List.not_mem_nil p)
  | cons q rest ih =>
      intro chunks htok n
      show Chunk.tok n ∉ applyBucket rest (chunks.map (substChunk q.1.data (pyStr q.2).data))
      refine ih _ ?_ n
      intro m2 hm2
      rw [List.mem_map] at hm2
      obtain ⟨c, hc, hcs⟩ := hm2
      cases c with
      | lit s => simp [substChunk] at hcs
      | tok nc =>
          by_cases hqe : nc = q.1.data
          · simp [substChunk, hqe] at hcs
          · simp only [substChunk, if_neg hqe] at hcs
            have hnc : nc = m2 := Chunk.tok.inj hcs
            subst hnc
            obtain ⟨p, hp, hpd⟩ := htok nc hc
            rcases List.mem_cons.mp hp with he | hmr
            · subst he
              exact absurd hpd.symm hqe
            · exact ⟨p, hmr, hpd⟩

/-- A token whose name is bound by no bucket entry survives bucket
application. -/
theorem applyBucket_keeps_tok :
    ∀ (bucket : PyDict) (chunks : List Chunk) (n : List Char),
      Chunk.tok n ∈ chunks → (∀ p ∈ bucket, p.1.data ≠ n) →
      Chunk.tok n ∈ applyBucket bucket chunks := by
  intro bucket
  induction bucket with
  | nil => intro chunks n hmem _; exact hmem
  | cons q rest ih =>
      intro chunks n hmem hnb
      show Chunk.tok n ∈ applyBucket rest (chunks.map (substChunk q.1.data (pyStr q.2).data))
      refine ih _ n ?_ (fun p hp => hnb p (List.mem_cons_of_mem q hp))
      rw [List.mem_map]
      refine ⟨Chunk.tok n, hmem, ?_⟩
      have hq : q.1.data ≠ n := hnb q (List.mem_cons_self q rest)
      simp only [substChunk]
      rw [if_neg (fun he => hq he.symm)]

/-- A template with no tokens and brace-free literals renders to a
brace-free string. -/
theorem render_no_tok_braceFree :
    ∀ chunks, chunksWF chunks = true → (∀ n, Chunk.tok n ∉ chunks) →
      braceFree (renderChunks chunks) = true := by
  intro chunks
  induction chunks with
  | nil => intro _ _; rfl
  | cons c r ih =>
      intro hwf hnt
      simp only [chunksWF, List.all_cons, Bool.and_eq_true] at hwf
      cases c with
      | lit s =>
          simp only [renderChunks, braceFree, List.all_append]
          rw [Bool.and_eq_true]
          exact ⟨hwf.1,
            ih hwf.2 (fun n hn => hnt n (List.mem_cons_of_mem _ hn))⟩
      | tok n => exact absurd (List.mem_cons_self _ r) (hnt n)

/-- Substring containment is preserved by prepending text. -/
theorem listContains_append_right :
    ∀ (xs ys pat : List Char), listContains ys pat = true →
      listContains (xs ++ ys) pat = true := by
  intro xs ys pat h
  induction xs with
  | nil => exact h
  | cons x xs ih =>
      rw [List.cons_append]
      unfold listContains
      rw [ih]
      simp

/-- The render of a template contains every token it holds, verbatim. -/
theorem render_contains_tok :
    ∀ (chunks : List Chunk) (n : List Char), Chunk.tok n ∈ chunks →
      listContains (renderChunks chunks) ('{' :: (n ++ ['}'])) = true := by
  intro chunks
  induction chunks with
  | nil => intro n hn; exact absurd hn (List.not_mem_nil _)
  | cons c r ih =>
      intro n hn
      rcases List.mem_cons.mp hn with he | hm
      · rw [← he]
        simp only [renderChunks]
        unfold listContains
        have hp : ('{' :: (n ++ ['}'])).isPrefixOf
            ('{' :: (n ++ ('}' :: renderChunks r))) = true := by
          simp only [List.isPrefixOf, Bool.and_eq_true, beq_self_eq_true, true_and]
          exact token_self_pre n (renderChunks r)
        rw [hp]
        simp
      · cases c with
        | lit s =>
            simp only [renderChunks]
            exact listContains_append_right s _ _ (ih n hm)
        | tok nc =>
            simp only [renderChunks]
            rw [show '{' :: (nc ++ ('}' :: renderChunks r)) =
                ('{' :: (nc ++ ['}'])) ++ renderChunks r by simp]
            exact listContains_append_right _ _ _ (ih n hm)

/-- Bucket application preserves template well-formedness when all
substituted values are brace-free. -/
theorem applyBucket_WF :
    ∀ (bucket : PyDict) (chunks : List Chunk), chunksWF chunks = true →
      (∀ p ∈ bucket, braceFree (pyStr p.2).data = true) →
      chunksWF (applyBucket bucket chunks) = true := by
  intro bucket
  induction bucket with
  | nil => intro chunks hwf _; exact hwf
  | cons q rest ih =>
      intro chunks hwf hvals
      show chunksWF (applyBucket rest (chunks.map (substChunk q.1.data (pyStr q.2).data))) = true
      exact ih _
        (chunksWF_map_subst q.1.data (pyStr q.2).data
          (hvals q (List.mem_cons_self q rest)) chunks hwf)
        (fun p hp => hvals p (List.mem_cons_of_mem q hp))

/-- C7.  For a URL rendered from a well-formed template (brace-free
literals and token names, brace-free substituted values): when every
`{name}` token of the template is bound in the path bucket, the
substitution loop of `invoke` leaves no brace — no `{token}` placeholder
remains in the final URL; and every token bound by no bucket entry is
left verbatim in the outgoing URL rather than being rejected. -/
theorem path_substitution (chunks : List Chunk) (bucket : PyDict)
    (hWF : chunksWF chunks = true)
    (hKeys : ∀ p ∈ bucket, braceFree p.1.data = true)
    (hVals : ∀ p ∈ bucket, braceFree (pyStr p.2).data = true) :
    ((∀ n, Chunk.tok n ∈ chunks → ∃ p ∈ bucket, p.1.data = n) →
        braceFree (substPath ⟨renderChunks chunks⟩ bucket).data = true) ∧
    (∀ n, Chunk.tok n ∈ chunks → (∀ p ∈ bucket, p.1.data ≠ n) →
        listContains (substPath ⟨renderChunks chunks⟩ bucket).data
          ('{' :: (n ++ ['}'])) = true) := by
  constructor
  · intro hall
    rw [substPath_render bucket chunks hWF hKeys hVals]
    exact render_no_tok_braceFree _ (applyBucket_WF bucket chunks hWF hVals)
      (applyBucket_no_tok bucket chunks hall)
  · intro n hn hnb
    rw [substPath_render bucket chunks hWF hKeys hVals]
    exact render_contains_tok _ n (applyBucket_keeps_tok bucket chunks n hn hnb)

/-- The weather endpoint template `…/data/{city}/units/{unit}` used to
instantiate C7. -/
def demoChunks : List Chunk :=
  [Chunk.lit "http://api.example.org/data/".data, Chunk.tok "city".data,
   Chunk.lit "/units/".data, Chunk.tok "unit".data]

/-- Witness for C7: binding both path parameters leaves no placeholder
in the final URL, while omitting `unit` leaves `{unit}` verbatim. -/
theorem path_substitution_witness :
    braceFree (substPath ⟨renderChunks demoChunks⟩
        [("city", PyVal.str "amsterdam"), ("unit", PyVal.int 3)]).data = true ∧
    listContains (substPath ⟨renderChunks demoChunks⟩
        [("city", PyVal.str "amsterdam")]).data
      ('{' :: ("unit".data ++ ['}'])) = true := by
  constructor
  · refine (path_substitution demoChunks
      [("city", PyVal.str "amsterdam"), ("unit", PyVal.int 3)]
      (by decide) (by decide) (by decide)).1 ?_
    intro n hn
    simp only [demoChunks, List.mem_cons, List.not_mem_nil, or_false] at hn
    rcases hn with h | h | h | h
    · cases h
    · refine ⟨("city", PyVal.str "amsterdam"), by simp, ?_⟩
      exact (Chunk.tok.inj h.symm)
    · cases h
    · refine ⟨("unit", PyVal.int 3), by simp, ?_⟩
      exact (Chunk.tok.inj h.symm)
  · refine (path_substitution demoChunks [("city", PyVal.str "amsterdam")]
      (by decide) (by decide) (by decide)).2 "unit".data (by simp [demoChunks]) ?_
    intro p hp
    simp only [List.mem_cons, List.not_mem_nil, or_false] at hp
    subst hp
    decide
